import Mathlib

/-!
# Verification of the agentic-trader v4.6 signal-to-execution pipeline

Shallow embedding, over exact rationals, of the trust engines, decision
engine, guardrail evaluator, position sizer and order executor of the
`fx_v46` / `xau_v46` / `idx_v46` modules.  Python floats are modelled as
rationals; `round` is modelled exactly as round-half-to-even (banker's
rounding, Python's semantics); the transcendental helpers
(`0.5 ** (s/h)` in the FX trust decay and the `exp`-based sigmoid of the
decider) are abstracted as function parameters, with the bounds the real
functions satisfy stated as hypotheses where a proof needs them.
-/

namespace Trader

/-- Clamp a rational to the unit interval: `max(0.0, min(1.0, x))`. -/
def clamp01 (x : ℚ) : ℚ := max 0 (min 1 x)

/-- Python's `round` to an integer: round half to even (banker's rounding). -/
def roundHE (q : ℚ) : ℤ :=
  if Int.fract q < 1/2 then ⌊q⌋
  else if 1/2 < Int.fract q then ⌊q⌋ + 1
  else if ⌊q⌋ % 2 = 0 then ⌊q⌋ else ⌊q⌋ + 1

/-- Python's `round(x, n)` for `n` decimal digits. -/
def pyRound (q : ℚ) (n : ℕ) : ℚ := (roundHE (q * 10 ^ n) : ℚ) / 10 ^ n

/-- Python's `x or d` idiom on floats: `0.0` is falsy and replaced by `d`. -/
def orDefault (x d : ℚ) : ℚ := if x = 0 then d else x

/-! ## FX trust engine (`fx_v46/trust/trust_engine_v46.py`)

State: module-level `defaultdict`s `_TRUST` (default 0.50) and `_LAST`
(default 0.0), modelled as total functions with the defaults baked in.
The exponential half-life factor `0.5 ** (seconds / half_life_s)` is
abstracted as the parameter `hpow seconds half_life_s`; the real factor
lies in `[0,1]` whenever both arguments are positive, which is the only
regime in which `_decay` consults it. -/

/-- The FX trust-store state: per-symbol trust (default 0.5) and
last-read timestamp (default 0.0). -/
structure FxState where
  trust : String → ℚ
  last : String → ℚ

/-- Initial FX trust store: every symbol at neutral 0.5, timestamp 0. -/
def FxState.init : FxState := ⟨fun _ => 1/2, fun _ => 0⟩

/-- Model of `_decay(trust, seconds, half_life_s)`: exponential decay toward 0.5,
with the power `0.5 ** (seconds/half_life_s)` abstracted as `hpow`. -/
def fxDecay (hpow : ℚ → ℚ → ℚ) (trust seconds halfLife : ℚ) : ℚ :=
  if halfLife ≤ 0 ∨ seconds ≤ 0 then trust
  else 1/2 + (trust - 1/2) * hpow seconds halfLife

/-- Model of `get_trust_level(symbol)` at clock `now` (default half-life
180 minutes): applies decay, stores the decayed value and the new
timestamp, and returns the clamped trust. -/
def fxGet (hpow : ℚ → ℚ → ℚ) (now : ℚ) (symbol : String) (st : FxState) :
    ℚ × FxState :=
  let delta := now - st.last symbol
  let t := fxDecay hpow (st.trust symbol) delta (180 * 60)
  (clamp01 t,
   ⟨fun s => if s = symbol then t else st.trust s,
    fun s => if s = symbol then now else st.last s⟩)

/-- Model of `update_trust(symbol, won)` at clock `now` (defaults
`step_up = 0.05`, `step_dn = 0.08`): reads via `get_trust_level`, adds
the step, clamps to [0,1] and stores. -/
def fxUpdate (hpow : ℚ → ℚ → ℚ) (now : ℚ) (symbol : String) (won : Bool)
    (st : FxState) : FxState :=
  let (t, st') := fxGet hpow now symbol st
  let t' := clamp01 (t + if won then 5/100 else -(8/100))
  ⟨fun s => if s = symbol then t' else st'.trust s, st'.last⟩

/-- Model of `adjusted_confidence(raw_conf, symbol, trust_weight)` at clock `now`:
blends the (state-mutating) trust read with the raw confidence. -/
def fxAdjustedConfidence (hpow : ℚ → ℚ → ℚ) (now : ℚ) (rawConf : ℚ)
    (symbol : String) (w : ℚ) (st : FxState) : ℚ × FxState :=
  let (t, st') := fxGet hpow now symbol st
  (clamp01 ((1 - w) * rawConf + w * t), st')

/-- One operation against the FX trust store: a read
(`get_trust_level`) or an outcome update (`update_trust`), each tagged
with the wall-clock instant at which it runs. -/
inductive FxOp where
  | get (symbol : String) (now : ℚ)
  | upd (symbol : String) (won : Bool) (now : ℚ)

/-- Run a sequence of FX trust operations from a state, collecting every
value returned by the getter. -/
def runFx (hpow : ℚ → ℚ → ℚ) : List FxOp → FxState → FxState × List ℚ
  | [], st => (st, [])
  | .get s now :: ops, st =>
      let (v, st') := fxGet hpow now s st
      let (stf, vs) := runFx hpow ops st'
      (stf, v :: vs)
  | .upd s won now :: ops, st =>
      runFx hpow ops (fxUpdate hpow now s won st)

/-! ## XAU trust engine (`xau_v46/trust/xau_trust_engine_v46.py`)

Module constants: `TRUST_DECAY_BARS = 1200`, `TRUST_DECAY_STEP = 0.01`,
`TRUST_INC_SUCCESS = 0.05`, `TRUST_DECAY_FAIL = 0.10`, `TRUST_MIN = 0.40`,
`TRUST_MAX = 0.95`.  `_trust.get(symbol, 0.5)` and
`_last_update.get(symbol, 0)` are modelled as total functions with those
defaults baked in. -/

/-- The XAU trust-store state: per-symbol trust (read default 0.5) and
last-update timestamp (read default 0). -/
structure XauState where
  trust : String → ℚ
  last : String → ℚ

/-- Initial XAU trust store: empty dictionaries, i.e. every read sees the
defaults 0.5 and 0. -/
def XauState.init : XauState := ⟨fun _ => 1/2, fun _ => 0⟩

/-- Model of `TRUST_MIN` of the XAU engine. -/
def xauTrustMin : ℚ := 40/100

/-- Model of `TRUST_MAX` of the XAU engine. -/
def xauTrustMax : ℚ := 95/100

/-- Decay horizon in seconds: `TRUST_DECAY_BARS * 15 * 60`. -/
def xauHorizonSec : ℚ := 1200 * 15 * 60

/-- XAU `update_trust(symbol, success)` at clock `now`: add 0.05 on
success, subtract 0.10 on failure, clamp to `[TRUST_MIN, TRUST_MAX]`. -/
def xauUpdate (now : ℚ) (symbol : String) (success : Bool)
    (st : XauState) : XauState :=
  let current := st.trust symbol + if success then 5/100 else -(10/100)
  let current := max xauTrustMin (min current xauTrustMax)
  ⟨fun s => if s = symbol then current else st.trust s,
   fun s => if s = symbol then now else st.last s⟩

/-- XAU `_decay(symbol)` at clock `now`: if the decay horizon has elapsed
since the last update, drop trust by `TRUST_DECAY_STEP` floored at
`TRUST_MIN` and stamp the time. -/
def xauDecay (now : ℚ) (symbol : String) (st : XauState) : XauState :=
  if now - st.last symbol > xauHorizonSec then
    ⟨fun s => if s = symbol then max xauTrustMin (st.trust symbol - 1/100)
              else st.trust s,
     fun s => if s = symbol then now else st.last s⟩
  else st

/-- XAU `get_trust_score(symbol)` at clock `now`: lazy decay, then read
(default 0.5 for a symbol never written). -/
def xauGetScore (now : ℚ) (symbol : String) (st : XauState) :
    ℚ × XauState :=
  let st' := xauDecay now symbol st
  (st'.trust symbol, st')

/-- One operation against the XAU trust store. -/
inductive XauOp where
  | get (symbol : String) (now : ℚ)
  | upd (symbol : String) (success : Bool) (now : ℚ)

/-- Run a sequence of XAU trust operations, collecting getter returns. -/
def runXau : List XauOp → XauState → XauState × List ℚ
  | [], st => (st, [])
  | .get s now :: ops, st =>
      let (v, st') := xauGetScore now s st
      let (stf, vs) := runXau ops st'
      (stf, v :: vs)
  | .upd s success now :: ops, st =>
      runXau ops (xauUpdate now s success st)

/-! ## IDX trust engine (`idx_v46/trust/idx_trust_engine_v46.py`)

`_rec(symbol)` lazily creates a record with `trust = 0.0`,
`last_side = ""`, `streak = 0`; the session key is modelled as an opaque
string carried in the record.  The tunables read from `ENV`
(`IDX_TRUST_SESSION_RESET*`, `IDX_TRUST_BASE_GROWTH`,
`IDX_TRUST_CONF_GAIN`, `IDX_TRUST_DECAY_BASE`,
`IDX_TRUST_DECAY_VOL_MULT`) are passed as an explicit parameter
record. -/

/-- The per-symbol IDX trust record as created by `_rec`. -/
structure IdxRec where
  trust : ℚ
  lastSide : String
  sessionKey : String
  streak : ℤ

/-- Fresh IDX record for a never-seen symbol (note `trust = 0.0`). -/
def IdxRec.fresh (sk : String) : IdxRec := ⟨0, "", sk, 0⟩

/-- The IDX trust store keyed by symbol; `none` = never seen. -/
structure IdxState where
  tbl : String → Option IdxRec

/-- Initial IDX store: empty dictionary. -/
def IdxState.init : IdxState := ⟨fun _ => none⟩

/-- The `ENV` tunables consumed by the IDX `update_trust`. -/
structure IdxEnv where
  sessionResetEnabled : Bool
  sessionResetFactor : ℚ
  baseGrowth : ℚ
  confGain : ℚ
  decayBase : ℚ
  decayVolMult : ℚ

/-- Model of `_rec(symbol)` read: the stored record, or a fresh one (created with
the current session key) when the symbol was never seen. -/
def idxRecOf (sk : String) (st : IdxState) (symbol : String) : IdxRec :=
  (st.tbl symbol).getD (IdxRec.fresh sk)

/-- IDX `get_trust(symbol)`: `float(_rec(symbol)["trust"])`. -/
def idxGetTrust (sk : String) (st : IdxState) (symbol : String) : ℚ :=
  (idxRecOf sk st symbol).trust

/-- IDX `update_trust(symbol, side, conf_base, atr_pct)` with current
session key `sk`: session reset when the key changed, streak upkeep,
confidence-weighted growth minus ATR-weighted decay, clamped to
[0,1]. -/
def idxUpdate (env : IdxEnv) (sk : String) (symbol side : String)
    (confBase atrPct : ℚ) (st : IdxState) : IdxState :=
  let r := idxRecOf sk st symbol
  let r :=
    if env.sessionResetEnabled ∧ r.sessionKey ≠ sk then
      { r with trust := clamp01 (r.trust * env.sessionResetFactor),
               sessionKey := sk }
    else r
  let r :=
    if side ≠ "" ∧ r.lastSide = side then { r with streak := r.streak + 1 }
    else { r with streak := 1, lastSide := side }
  let growth := env.baseGrowth + env.confGain * max 0 (min 1 confBase)
  let decay := env.decayBase * (1 + max 0 atrPct * env.decayVolMult)
  let r := { r with trust := clamp01 (r.trust + growth - decay) }
  ⟨fun s => if s = symbol then some r else st.tbl s⟩

/-- One operation against the IDX trust store (reads merely create the
record when absent in the Python `_rec`, which does not change any
trust value a later read observes; we model the read as pure). -/
inductive IdxOp where
  | get (symbol : String) (sk : String)
  | upd (symbol side : String) (confBase atrPct : ℚ) (sk : String)

/-- Run a sequence of IDX trust operations under fixed tunables,
collecting getter returns. -/
def runIdx (env : IdxEnv) : List IdxOp → IdxState → IdxState × List ℚ
  | [], st => (st, [])
  | .get s sk :: ops, st =>
      let (stf, vs) := runIdx env ops st
      (stf, idxGetTrust sk st s :: vs)
  | .upd s side cb ap sk :: ops, st =>
      runIdx env ops (idxUpdate env sk s side cb ap st)

/-! ## Decision engine (`fx_v46/fx_decider_v46.py`)

`_sigmoid` (`1/(1+exp(-x))`) is transcendental; it is abstracted as the
parameter `sigmoid : ℚ → ℚ`.  The `.env` lookups of `decide_signal`
(per-symbol RSI thresholds, SL/TP pips, minimum confidence) are modelled
as a record of resolved values. -/

/-- Model of `_conf_from_indicators(rsi, ema_gap, atr_pct)` with the sigmoid
abstracted: returns the raw confidence and the reason tags. -/
def confFromIndicators (sigmoid : ℚ → ℚ) (rsi emaGap atrPct : ℚ) :
    ℚ × List String :=
  let rsiDist := (rsi - 50) / 25
  let rsiConf := sigmoid (5/2 * rsiDist)
  let why := if rsi ≥ 55 then ["rsi_confirms_bull"]
             else if rsi ≤ 45 then ["rsi_confirms_bear"]
             else ["rsi_neutral"]
  let emaSign : ℚ := if emaGap > 0 then 1 else if emaGap < 0 then -1 else 0
  let emaMag := min 1 (|emaGap| / (atrPct * 2 + 1/1000000000))
  let emaConf := sigmoid (2 * emaSign * emaMag)
  let volPen := max (6/10) (min 1 (atrPct / (10/10000)))
  (clamp01 (1/2 * rsiConf + 1/2 * emaConf) * volPen, why)

/-- The feature snapshot consumed by `decide_signal`. -/
structure Feats where
  symbol : String
  rsi : ℚ
  emaGap : ℚ
  atrPct : ℚ

/-- The `.env`-resolved parameters consumed by `decide_signal`. -/
structure DecEnv where
  rsiLongTh : ℚ
  rsiShortTh : ℚ
  slPips : ℚ
  tpPips : ℚ
  minConf : ℚ

/-- The `preview` dictionary built by `decide_signal`. -/
structure Preview where
  side : String
  note : String
  slPips : ℚ
  tpPips : ℚ
  confidence : ℚ
  rawConf : ℚ
  why : List String
  deriving DecidableEq

/-- The decision returned by `decide_signal`. -/
structure Decision where
  accepted : Bool
  preview : Preview
  deriving DecidableEq

/-- Model of `decide_signal(feats, env)` at clock `now` over trust state `st`:
momentum/RSI side resolution, trust blending via `adjusted_confidence`
(which reads — and thereby decays and rewrites — the FX trust store),
and the minimum-confidence gate.  Returns the decision together with the
trust state left behind by the embedded `get_trust_level` call. -/
def decideSignal (sigmoid : ℚ → ℚ) (hpow : ℚ → ℚ → ℚ) (env : DecEnv)
    (feats : Feats) (now : ℚ) (st : FxState) : Decision × FxState :=
  let rawConf := (confFromIndicators sigmoid feats.rsi feats.emaGap feats.atrPct).1
  let why0 := (confFromIndicators sigmoid feats.rsi feats.emaGap feats.atrPct).2
  let sideWhy :=
    if feats.rsi ≥ env.rsiLongTh ∧ feats.emaGap > 0 then
      ("LONG", why0 ++ ["ema_rsi_bull"])
    else if feats.rsi ≤ env.rsiShortTh ∧ feats.emaGap < 0 then
      ("SHORT", why0 ++ ["ema_rsi_bear"])
    else ("", why0 ++ ["mixed_or_neutral"])
  let side := sideWhy.1
  let why := sideWhy.2
  let adjConf :=
    (fxAdjustedConfidence hpow now rawConf feats.symbol (4/10) st).1
  let st' :=
    (fxAdjustedConfidence hpow now rawConf feats.symbol (4/10) st).2
  let preview : Preview :=
    { side := side
      note := if side ≠ "" then "momentum/trust v4.6" else "no_trade"
      slPips := env.slPips
      tpPips := env.tpPips
      confidence := pyRound adjConf 2
      rawConf := pyRound rawConf 2
      why := why }
  ({ accepted := side ≠ "" ∧ adjConf ≥ env.minConf, preview := preview }, st')

/-! ## Position sizer (`fx_v46/util/lot_scaler_v46.py` and
`_normalize_volume` in `fx_v46/fx_executor_v46.py`) -/

/-- The `ENV` fields consumed by `compute_lot`. -/
structure LotEnv where
  dynamicLots : Bool
  minLots : ℚ
  maxLots : ℚ
  perLots : String → Option ℚ

/-- Model of `compute_lot(symbol, confidence)`: static per-symbol lot when dynamic
sizing is off, otherwise linear interpolation between `ENV.min_lots` and
`ENV.max_lots` by the clamped confidence, rounded to 3 decimals. -/
def computeLot (env : LotEnv) (symbol : String) (confidence : ℚ) : ℚ :=
  if !env.dynamicLots then
    match env.perLots symbol with
    | some l => pyRound l 3
    | none => pyRound ((env.minLots + env.maxLots) / 2) 3
  else
    let conf := max 0 (min 1 confidence)
    pyRound (env.minLots + (env.maxLots - env.minLots) * conf) 3

/-- Venue symbol metadata as returned by `mt5.symbol_info`. -/
structure SymInfo where
  digits : ℕ
  point : ℚ
  tradeStopsLevel : ℚ
  volumeMin : ℚ
  volumeMax : ℚ
  volumeStep : ℚ
  deriving DecidableEq

/-- The arithmetic core of `_normalize_volume` once `symbol_info`
returned `info`: apply the falsy-`or` defaults, clamp to
`[volume_min, volume_max]`, snap to the nearest step multiple, round the
product to 8 decimals.  Note the code does not re-clamp after
snapping. -/
def normalizeVolumeCore (info : SymInfo) (lots : ℚ) : ℚ :=
  let vmin := orDefault info.volumeMin (1/100)
  let vmax := orDefault info.volumeMax 100
  let vstep := orDefault info.volumeStep (1/100)
  let l := max vmin (min vmax lots)
  let steps := roundHE (l / vstep)
  pyRound ((steps : ℚ) * vstep) 8

/-! ## Order executor (`fx_v46/fx_executor_v46.py`)

Every MetaTrader gateway call is modelled by an oracle value of type
`GwRes α`: `.throw` = the call raised a Python exception, `.missing` =
it returned `None` (falsy), `.ok a` = it returned `a`.  Successive
`mt5.order_send` calls are an oracle indexed by call number.  The
executor's guardrail dictionaries `_last_trade_time` / `_last_direction`
are the `.get`-defaulted functions of `ExecState`, together with the FX
trust store that `update_trust` mutates. -/

/-- Outcome of one gateway call: raised, returned `None`, or returned a
value. -/
inductive GwRes (α : Type) where
  | throw
  | missing
  | ok (a : α)
  deriving DecidableEq

/-- An open position as seen through `mt5.positions_get()`. -/
structure Position where
  symbol : String
  deriving DecidableEq

/-- A price tick from `mt5.symbol_info_tick`. -/
structure Tick where
  bid : ℚ
  ask : ℚ
  deriving DecidableEq

/-- The `ENV` fields consumed by the executor. -/
structure FxEnv where
  agentSymbols : List String
  agentMaxOpen : ℤ
  agentMaxPerSymbol : ℤ
  cooldownSec : ℚ
  blockSameDirection : Bool
  stopWidenMult : ℚ
  lot : LotEnv

/-- Executor-owned mutable state: the cooldown/direction dictionaries
(read with defaults 0 and `None`) and the FX trust store. -/
structure ExecState where
  lastTradeTime : String → ℚ
  lastDirection : String → Option String
  fxTrust : FxState

/-- Which guardrail fired (the distinct log/return branches of
`_can_open_trade`). -/
inductive BlockReason where
  | global_cap
  | symbol_cap
  | cooldown
  | same_direction
  deriving DecidableEq

/-- The positions list actually used: `positions_get()` wrapped in its
own `try` (an exception falls back to `[]`), and `or []` turns a `None`
return into `[]`. -/
def effectivePositions : GwRes (List Position) → List Position
  | .ok l => l
  | _ => []

/-- The positions restricted to the agent's symbols:
`[p for p in positions if (not allowed) or (p.symbol in allowed)]`. -/
def filteredPositions (env : FxEnv) (positions : List Position) :
    List Position :=
  positions.filter fun p =>
    env.agentSymbols.isEmpty || env.agentSymbols.contains p.symbol

/-- Model of `total_active` of `_can_open_trade`. -/
def totalActive (env : FxEnv) (positions : List Position) : ℤ :=
  (filteredPositions env positions).length

/-- Model of `per_symbol` of `_can_open_trade`. -/
def perSymbolCount (env : FxEnv) (positions : List Position)
    (symbol : String) : ℤ :=
  ((filteredPositions env positions).filter fun p =>
    p.symbol == symbol).length

/-- Model of `_can_open_trade(symbol, side)` at clock `now`: positions are read
from the gateway (an exception or `None` yields the empty list), filtered
to the agent's symbols; then the four checks run in order — global cap,
per-symbol cap, cooldown, same-direction — short-circuiting on the first
failure.  `none` = allowed. -/
def canOpenTrade (env : FxEnv) (st : ExecState)
    (positionsRes : GwRes (List Position)) (symbol side : String)
    (now : ℚ) : Option BlockReason :=
  let positions := effectivePositions positionsRes
  if totalActive env positions ≥ env.agentMaxOpen then some .global_cap
  else if perSymbolCount env positions symbol ≥ env.agentMaxPerSymbol then
    some .symbol_cap
  else if now - st.lastTradeTime symbol < env.cooldownSec then some .cooldown
  else if env.blockSameDirection ∧ st.lastDirection symbol = some side then
    some .same_direction
  else none

/-- The gateway oracle for one `execute_trade` call: one slot per
gateway interaction site, plus the indexed `order_send` oracle. -/
structure Gw where
  positions : GwRes (List Position)
  info1 : GwRes SymInfo
  selectOk : GwRes Bool
  info1b : GwRes SymInfo
  infoNorm : GwRes SymInfo
  tick : GwRes Tick
  infoBuild : GwRes SymInfo
  infoStops : GwRes SymInfo
  send : ℕ → GwRes ℤ

/-- Model of `mt5.TRADE_RETCODE_DONE`. -/
def retcodeDone : ℤ := 10009

/-- Model of `_pip_size(symbol)`: 0.01 for JPY crosses, else 0.0001. -/
def pipSize (symbol : String) : ℚ :=
  if (symbol.toUpper.splitOn "JPY").length > 1 then 1/100 else 1/10000

/-- Model of `_price_round(price, digits)`. -/
def priceRound (p : ℚ) (digits : ℕ) : ℚ := pyRound p digits

/-- Model of `_build_prices` inside the `try` block: `none` = a Python exception
(gateway throw, or the `RuntimeError` raised on a missing tick or
missing symbol info), to be caught by `execute_trade`'s handler. -/
def buildPrices (gw : Gw) (symbol side : String) (slPips tpPips : ℚ) :
    Option (ℚ × ℚ × ℚ) :=
  match gw.tick with
  | .ok t =>
    let price := if side = "LONG" then t.ask else t.bid
    let pip := pipSize symbol
    let sl := if side = "LONG" then price - slPips * pip
              else price + slPips * pip
    let tp := if side = "LONG" then price + tpPips * pip
              else price - tpPips * pip
    match gw.infoBuild with
    | .ok i =>
        some (priceRound price i.digits, priceRound sl i.digits,
              priceRound tp i.digits)
    | _ => none
  | _ => none

/-- Model of `_min_stop_distance_ok`: `none` = the `symbol_info` call raised
(caught by the outer handler); missing info or a non-positive stops
level passes the check. -/
def minStopOk (res : GwRes SymInfo) (price sl tp : ℚ) : Option Bool :=
  match res with
  | .throw => none
  | .missing => some true
  | .ok i =>
    if i.tradeStopsLevel ≤ 0 then some true
    else
      let point := orDefault i.point ((10 : ℚ) ^ (-(i.digits : ℤ)))
      let minDist := i.tradeStopsLevel * point
      some (decide (minDist ≤ |price - sl|) && decide (minDist ≤ |price - tp|))

/-- Model of `_send_order`: one `order_send` with IOC filling; on a non-success
retcode the request is resent once with FOK filling.  Returns the final
result (`.throw` = an `order_send` raised, propagating out) and the
number of `order_send` gateway calls issued. -/
def sendOrder (send : ℕ → GwRes ℤ) (idx : ℕ) : GwRes ℤ × ℕ :=
  match send idx with
  | .throw => (.throw, 1)
  | .missing => (.missing, 1)
  | .ok rc =>
    if rc = retcodeDone then (.ok rc, 1)
    else
      match send (idx + 1) with
      | .throw => (.throw, 2)
      | .missing => (.missing, 2)
      | .ok rc2 => (.ok rc2, 2)

/-- The result dictionary shapes `execute_trade` can return. -/
inductive TResult where
  | blocked
  | selectFailed
  | success (attempts : ℕ)
  | execFailed
  | caught
  deriving DecidableEq

/-- How one `execute_trade` call ends: either a returned dictionary or an
exception propagating to the caller. -/
inductive Outcome where
  | raised
  | ret (r : TResult)
  deriving DecidableEq

/-- What one `execute_trade` call produced: the outcome, the state left
behind, and the number of `order_send` calls issued to the gateway. -/
structure ExecOut where
  result : Outcome
  state : ExecState
  sends : ℕ

/-- State after `update_trust(symbol, False)`. -/
def lossState (hpow : ℚ → ℚ → ℚ) (now : ℚ) (symbol : String)
    (st : ExecState) : ExecState :=
  { st with fxTrust := fxUpdate hpow now symbol false st.fxTrust }

/-- State after the success bookkeeping: `update_trust(symbol, True)`,
`_last_trade_time[symbol] = now`, `_last_direction[symbol] = side`. -/
def winState (hpow : ℚ → ℚ → ℚ) (now : ℚ) (symbol side : String)
    (st : ExecState) : ExecState :=
  { lastTradeTime := fun s => if s = symbol then now else st.lastTradeTime s
    lastDirection := fun s => if s = symbol then some side
                              else st.lastDirection s
    fxTrust := fxUpdate hpow now symbol true st.fxTrust }

/-- The body of `execute_trade`'s `try` block: price build, min-stop
check with pre-send widening, attempt 1, widen-and-retry, and the
`except` handler (every `none`/`.throw` arising here is caught, trust is
penalised and a `caught` dictionary returned).  `info` is the symbol
info resolved before the `try`; the widening and the retry dereference
`info.digits`, so `info = none` raises there (caught). -/
def tryPhase (hpow : ℚ → ℚ → ℚ) (env : FxEnv) (gw : Gw)
    (symbol side : String) (slPips tpPips : ℚ) (info : Option SymInfo)
    (now : ℚ) (st : ExecState) : ExecOut :=
  let caughtOut : ℕ → ExecOut := fun n =>
    ⟨.ret .caught, lossState hpow now symbol st, n⟩
  match buildPrices gw symbol side slPips tpPips with
  | none => caughtOut 0
  | some (price, sl, tp) =>
    match minStopOk gw.infoStops price sl tp with
    | none => caughtOut 0
    | some stopsOk =>
      let widened : Option (ℚ × ℚ) :=
        if stopsOk then some (sl, tp)
        else
          match info with
          | none => none
          | some i =>
            let widen := env.stopWidenMult
            let pip := pipSize symbol
            some (if side = "LONG" then
                    (priceRound (price - slPips * widen * pip) i.digits,
                     priceRound (price + tpPips * widen * pip) i.digits)
                  else
                    (priceRound (price + slPips * widen * pip) i.digits,
                     priceRound (price - tpPips * widen * pip) i.digits))
      match widened with
      | none => caughtOut 0
      | some _ =>
        let res1 := (sendOrder gw.send 0).1
        let n1 := (sendOrder gw.send 0).2
        if res1 = .throw then caughtOut n1
        else if res1 = .ok retcodeDone then
          ⟨.ret (.success 1), winState hpow now symbol side st, n1⟩
        else if info = none then caughtOut n1
        else
          let res2 := (sendOrder gw.send n1).1
          let n2 := (sendOrder gw.send n1).2
          if res2 = .throw then caughtOut (n1 + n2)
          else if res2 = .ok retcodeDone then
            ⟨.ret (.success 2), winState hpow now symbol side st, n1 + n2⟩
          else ⟨.ret .execFailed, lossState hpow now symbol st, n1 + n2⟩

/-- Model of `execute_trade(symbol, side, base_lot, sl_pips, tp_pips, env,
confidence)` at clock `now`.  Guardrails first (no gateway submission
when blocked); then symbol-info resolution, lot computation and volume
normalization — all OUTSIDE the `try` block, so a gateway throw there
propagates (`.raised`); then the `try` phase. -/
def executeTrade (hpow : ℚ → ℚ → ℚ) (env : FxEnv) (gw : Gw)
    (symbol side : String) (slPips tpPips conf now : ℚ)
    (st : ExecState) : ExecOut :=
  if (canOpenTrade env st gw.positions symbol side now).isSome then
    ⟨.ret .blocked, st, 0⟩
  else
    let infoRes : GwRes (Option SymInfo) :=
      match gw.info1 with
      | .throw => .throw
      | .ok i => .ok (some i)
      | .missing =>
        match gw.selectOk with
        | .throw => .throw
        | .missing => .missing
        | .ok b =>
          if b then
            match gw.info1b with
            | .throw => .throw
            | .missing => .ok none
            | .ok i => .ok (some i)
          else .missing
    match infoRes with
    | .throw => ⟨.raised, st, 0⟩
    | .missing => ⟨.ret .selectFailed, st, 0⟩
    | .ok info =>
      let lotRaw := computeLot env.lot symbol conf
      match gw.infoNorm with
      | .throw => ⟨.raised, st, 0⟩
      | .missing =>
        let _ := lotRaw
        tryPhase hpow env gw symbol side slPips tpPips info now st
      | .ok ni =>
        let _ := normalizeVolumeCore ni lotRaw
        tryPhase hpow env gw symbol side slPips tpPips info now st

/-! ## Helper lemmas -/

lemma clamp01_nonneg (x : ℚ) : 0 ≤ clamp01 x := le_max_left _ _

lemma clamp01_le_one (x : ℚ) : clamp01 x ≤ 1 := by
  unfold clamp01
  rcases le_total 0 (min 1 x) with h | h
  · rw [max_eq_right h]
    exact min_le_left 1 x
  · simp [max_eq_left h]

lemma roundHE_cases (q : ℚ) : roundHE q = ⌊q⌋ ∨ roundHE q = ⌊q⌋ + 1 := by
  unfold roundHE
  split_ifs <;> simp

lemma roundHE_intCast (k : ℤ) : roundHE (k : ℚ) = k := by
  unfold roundHE
  norm_num [Int.fract_intCast, Int.floor_intCast]

lemma le_roundHE {a : ℤ} {q : ℚ} (h : (a : ℚ) ≤ q) : a ≤ roundHE q := by
  have hf : a ≤ ⌊q⌋ := Int.le_floor.mpr h
  rcases roundHE_cases q with hc | hc <;> omega

lemma roundHE_le {b : ℤ} {q : ℚ} (h : q ≤ (b : ℚ)) : roundHE q ≤ b := by
  have hf : ⌊q⌋ ≤ b := by
    have := Int.floor_le_floor h
    simpa using this
  rcases eq_or_lt_of_le hf with heq | hlt
  · have hq : q = (b : ℚ) := by
      have h1 : (b : ℚ) ≤ q := by
        rw [← heq]
        exact Int.floor_le q
      linarith
    rw [hq, roundHE_intCast]
  · rcases roundHE_cases q with hc | hc <;> omega

/-- Rounding with `pyRound` is the identity on rationals already expressible with `n`
decimal digits. -/
lemma pyRound_eq_self {q : ℚ} {n : ℕ} (k : ℤ) (h : q * 10 ^ n = (k : ℚ)) :
    pyRound q n = q := by
  unfold pyRound
  rw [h, roundHE_intCast, ← h]
  field_simp

lemma le_pyRound {lo q : ℚ} {n : ℕ} (k : ℤ) (hk : lo * 10 ^ n = (k : ℚ))
    (h : lo ≤ q) : lo ≤ pyRound q n := by
  unfold pyRound
  have hpow : (0 : ℚ) < 10 ^ n := by positivity
  have h1 : (k : ℚ) ≤ q * 10 ^ n := by
    rw [← hk]
    exact mul_le_mul_of_nonneg_right h (le_of_lt hpow)
  have h2 : (k : ℚ) ≤ (roundHE (q * 10 ^ n) : ℚ) := by
    exact_mod_cast le_roundHE h1
  rw [le_div_iff₀ hpow]
  linarith

lemma pyRound_le {hi q : ℚ} {n : ℕ} (k : ℤ) (hk : hi * 10 ^ n = (k : ℚ))
    (h : q ≤ hi) : pyRound q n ≤ hi := by
  unfold pyRound
  have hpow : (0 : ℚ) < 10 ^ n := by positivity
  have h1 : q * 10 ^ n ≤ (k : ℚ) := by
    rw [← hk]
    exact mul_le_mul_of_nonneg_right h (le_of_lt hpow)
  have h2 : (roundHE (q * 10 ^ n) : ℚ) ≤ (k : ℚ) := by
    exact_mod_cast roundHE_le h1
  rw [div_le_iff₀ hpow]
  linarith

/-- The bound the abstracted half-life power satisfies: the real factor
`0.5 ** (s/h)` lies in `[0,1]` whenever `s > 0` and `h > 0`. -/
def HpowBounded (hpow : ℚ → ℚ → ℚ) : Prop :=
  ∀ s h : ℚ, 0 < s → 0 < h → 0 ≤ hpow s h ∧ hpow s h ≤ 1

/-- All trust values of an FX store lie in `[0,1]`. -/
def FxState.InUnit (st : FxState) : Prop :=
  ∀ s, 0 ≤ st.trust s ∧ st.trust s ≤ 1

lemma fxDecay_mem {hpow : ℚ → ℚ → ℚ} (hb : HpowBounded hpow) {t : ℚ}
    (h0 : 0 ≤ t) (h1 : t ≤ 1) (seconds halfLife : ℚ) :
    0 ≤ fxDecay hpow t seconds halfLife ∧ fxDecay hpow t seconds halfLife ≤ 1 := by
  unfold fxDecay
  split_ifs with hguard
  · exact ⟨h0, h1⟩
  · push_neg at hguard
    obtain ⟨hk0, hk1⟩ := hb seconds halfLife hguard.2 hguard.1
    constructor <;> nlinarith

lemma fxGet_inUnit {hpow : ℚ → ℚ → ℚ} (hb : HpowBounded hpow)
    {st : FxState} (hst : st.InUnit) (now : ℚ) (symbol : String) :
    (0 ≤ (fxGet hpow now symbol st).1 ∧ (fxGet hpow now symbol st).1 ≤ 1) ∧
      (fxGet hpow now symbol st).2.InUnit := by
  refine ⟨⟨clamp01_nonneg _, clamp01_le_one _⟩, fun s => ?_⟩
  simp only [fxGet]
  split_ifs with h
  · exact fxDecay_mem hb (hst symbol).1 (hst symbol).2 _ _
  · exact hst s

lemma fxUpdate_inUnit {hpow : ℚ → ℚ → ℚ} (hb : HpowBounded hpow)
    {st : FxState} (hst : st.InUnit) (now : ℚ) (symbol : String)
    (won : Bool) : (fxUpdate hpow now symbol won st).InUnit := by
  intro s
  simp only [fxUpdate]
  by_cases h : s = symbol
  · rw [if_pos h]
    exact ⟨clamp01_nonneg _, clamp01_le_one _⟩
  · rw [if_neg h]
    exact ((fxGet_inUnit hb hst now symbol).2) s

lemma runFx_inUnit {hpow : ℚ → ℚ → ℚ} (hb : HpowBounded hpow)
    (ops : List FxOp) {st : FxState} (hst : st.InUnit) :
    (runFx hpow ops st).1.InUnit ∧
      ∀ v ∈ (runFx hpow ops st).2, 0 ≤ v ∧ v ≤ 1 := by
  induction ops generalizing st with
  | nil => exact ⟨hst, by simp [runFx]⟩
  | cons op ops ih =>
    cases op with
    | get s now =>
      obtain ⟨hv, hst'⟩ := fxGet_inUnit hb hst now s
      obtain ⟨hf, hvs⟩ := ih hst'
      refine ⟨by simpa [runFx] using hf, ?_⟩
      intro v hv'
      simp only [runFx, List.mem_cons] at hv'
      rcases hv' with rfl | hv'
      · exact hv
      · exact hvs v hv'
    | upd s won now =>
      obtain ⟨hf, hvs⟩ := ih (fxUpdate_inUnit hb hst now s won)
      exact ⟨by simpa [runFx] using hf, by simpa [runFx] using hvs⟩

/-- All trust values of a XAU store lie in the `[TRUST_MIN, TRUST_MAX]`
band. -/
def XauState.InBand (st : XauState) : Prop :=
  ∀ s, xauTrustMin ≤ st.trust s ∧ st.trust s ≤ xauTrustMax

lemma xauInit_inBand : XauState.init.InBand := by
  intro s
  simp [XauState.init, xauTrustMin, xauTrustMax]
  norm_num

lemma xauUpdate_inBand {st : XauState} (hst : st.InBand) (now : ℚ)
    (symbol : String) (success : Bool) :
    (xauUpdate now symbol success st).InBand := by
  intro s
  simp only [xauUpdate]
  by_cases h : s = symbol
  · rw [if_pos h]
    refine ⟨le_max_left _ _, ?_⟩
    have : xauTrustMin ≤ xauTrustMax := by norm_num [xauTrustMin, xauTrustMax]
    exact max_le this (min_le_right _ _)
  · rw [if_neg h]
    exact hst s

lemma xauDecay_inBand {st : XauState} (hst : st.InBand) (now : ℚ)
    (symbol : String) : (xauDecay now symbol st).InBand := by
  intro s
  unfold xauDecay
  split_ifs with hg
  · simp only
    by_cases h : s = symbol
    · rw [if_pos h]
      refine ⟨le_max_left _ _, max_le (by norm_num [xauTrustMin, xauTrustMax]) ?_⟩
      have := (hst symbol).2
      linarith
    · rw [if_neg h]
      exact hst s
  · exact hst s

lemma runXau_inBand (ops : List XauOp) {st : XauState} (hst : st.InBand) :
    (runXau ops st).1.InBand ∧
      ∀ v ∈ (runXau ops st).2, xauTrustMin ≤ v ∧ v ≤ xauTrustMax := by
  induction ops generalizing st with
  | nil => exact ⟨hst, by simp [runXau]⟩
  | cons op ops ih =>
    cases op with
    | get s now =>
      have hst' : (xauDecay now s st).InBand := xauDecay_inBand hst now s
      obtain ⟨hf, hvs⟩ := ih hst'
      refine ⟨by simpa [runXau, xauGetScore] using hf, ?_⟩
      intro v hv'
      simp only [runXau, xauGetScore, List.mem_cons] at hv'
      rcases hv' with rfl | hv'
      · exact hst' s
      · exact hvs v hv'
    | upd s success now =>
      obtain ⟨hf, hvs⟩ := ih (xauUpdate_inBand hst now s success)
      exact ⟨by simpa [runXau] using hf, by simpa [runXau] using hvs⟩

/-- Every record stored in an IDX trust store has trust in `[0,1]`. -/
def IdxState.InUnit (st : IdxState) : Prop :=
  ∀ s r, st.tbl s = some r → 0 ≤ r.trust ∧ r.trust ≤ 1

lemma idxGetTrust_mem {st : IdxState} (hst : st.InUnit) (sk s : String) :
    0 ≤ idxGetTrust sk st s ∧ idxGetTrust sk st s ≤ 1 := by
  unfold idxGetTrust idxRecOf
  cases h : st.tbl s with
  | none => simp [IdxRec.fresh]
  | some r => simpa using hst s r h

lemma idxUpdate_inUnit {env : IdxEnv} {st : IdxState} (hst : st.InUnit)
    (sk symbol side : String) (confBase atrPct : ℚ) :
    (idxUpdate env sk symbol side confBase atrPct st).InUnit := by
  intro s r hr
  simp only [idxUpdate] at hr
  by_cases h : s = symbol
  · rw [if_pos h] at hr
    cases hr
    exact ⟨clamp01_nonneg _, clamp01_le_one _⟩
  · rw [if_neg h] at hr
    exact hst s r hr

lemma runIdx_inUnit (env : IdxEnv) (ops : List IdxOp) {st : IdxState}
    (hst : st.InUnit) :
    (runIdx env ops st).1.InUnit ∧
      ∀ v ∈ (runIdx env ops st).2, 0 ≤ v ∧ v ≤ 1 := by
  induction ops generalizing st with
  | nil => exact ⟨hst, by simp [runIdx]⟩
  | cons op ops ih =>
    cases op with
    | get s sk =>
      obtain ⟨hf, hvs⟩ := ih hst
      refine ⟨by simpa [runIdx] using hf, ?_⟩
      intro v hv'
      simp only [runIdx, List.mem_cons] at hv'
      rcases hv' with rfl | hv'
      · exact idxGetTrust_mem hst sk s
      · exact hvs v hv'
    | upd s side cb ap sk =>
      obtain ⟨hf, hvs⟩ := ih (idxUpdate_inUnit hst sk s side cb ap)
      exact ⟨by simpa [runIdx] using hf, by simpa [runIdx] using hvs⟩

lemma sendOrder_sends_le (send : ℕ → GwRes ℤ) (i : ℕ) :
    (sendOrder send i).2 ≤ 2 := by
  unfold sendOrder
  cases send i with
  | throw => simp
  | missing => simp
  | ok rc =>
    by_cases h : rc = retcodeDone
    · simp [h]
    · cases send (i + 1) <;> simp [h]

lemma sendOrder_done {send : ℕ → GwRes ℤ} {i : ℕ}
    (h : (sendOrder send i).1 = .ok retcodeDone) :
    send i = .ok retcodeDone ∨ send (i + 1) = .ok retcodeDone := by
  unfold sendOrder at h
  cases hi : send i with
  | throw => simp [hi] at h
  | missing => simp [hi] at h
  | ok rc =>
    rw [hi] at h
    by_cases hrc : rc = retcodeDone
    · exact .inl (by rw [hrc])
    · right
      simp [hrc] at h
      cases hj : send (i + 1) with
      | throw => rw [hj] at h; simp at h
      | missing => rw [hj] at h; simp at h
      | ok rc2 =>
        rw [hj] at h
        simp only [GwRes.ok.injEq] at h
        rw [h]

/-- Exhaustive description of what the `try` phase can produce: a caught
exception (trust penalised), a double failure (trust penalised), or a
success (win bookkeeping, with some `order_send` having returned
`TRADE_RETCODE_DONE`); never more than 4 `order_send` calls. -/
lemma tryPhase_cases (hpow : ℚ → ℚ → ℚ) (env : FxEnv) (gw : Gw)
    (symbol side : String) (slPips tpPips : ℚ) (info : Option SymInfo)
    (now : ℚ) (st : ExecState) :
    (∃ n, n ≤ 4 ∧ tryPhase hpow env gw symbol side slPips tpPips info now st =
        ⟨.ret .caught, lossState hpow now symbol st, n⟩) ∨
    (∃ n, n ≤ 4 ∧ tryPhase hpow env gw symbol side slPips tpPips info now st =
        ⟨.ret .execFailed, lossState hpow now symbol st, n⟩) ∨
    (∃ n, n ≤ 4 ∧
      (tryPhase hpow env gw symbol side slPips tpPips info now st =
          ⟨.ret (.success 1), winState hpow now symbol side st, n⟩ ∨
       tryPhase hpow env gw symbol side slPips tpPips info now st =
          ⟨.ret (.success 2), winState hpow now symbol side st, n⟩) ∧
      ∃ k, gw.send k = .ok retcodeDone) := by
  have h1 := sendOrder_sends_le gw.send 0
  have h2 := sendOrder_sends_le gw.send ((sendOrder gw.send 0).2)
  rcases hbp : buildPrices gw symbol side slPips tpPips with _ | ⟨price, sl, tp⟩
  · exact .inl ⟨0, by norm_num, by simp [tryPhase, hbp]⟩
  rcases hms : minStopOk gw.infoStops price sl tp with _ | stopsOk
  · exact .inl ⟨0, by norm_num, by simp [tryPhase, hbp, hms]⟩
  by_cases hwid : stopsOk = false ∧ info = none
  · refine .inl ⟨0, by norm_num, ?_⟩
    obtain ⟨hs, hi⟩ := hwid
    simp [tryPhase, hbp, hms, hs, hi]
  · have hwid' : ¬ (stopsOk = false ∧ info = none) := hwid
    by_cases hth1 : (sendOrder gw.send 0).1 = .throw
    · refine .inl ⟨(sendOrder gw.send 0).2, by omega, ?_⟩
      rcases hso : stopsOk with _ | _
      · rcases hinf : info with _ | i
        · exact (hwid' ⟨hso, hinf⟩).elim
        · simp [tryPhase, hbp, hms, hso, hinf, hth1]
      · simp [tryPhase, hbp, hms, hso, hth1]
    · by_cases hdone1 : (sendOrder gw.send 0).1 = .ok retcodeDone
      · refine .inr (.inr ⟨(sendOrder gw.send 0).2, by omega, .inl ?_, ?_⟩)
        · rcases hso : stopsOk with _ | _
          · rcases hinf : info with _ | i
            · exact (hwid' ⟨hso, hinf⟩).elim
            · simp [tryPhase, hbp, hms, hso, hinf, hth1, hdone1]
          · simp [tryPhase, hbp, hms, hso, hth1, hdone1]
        · rcases sendOrder_done hdone1 with h | h
          · exact ⟨0, h⟩
          · exact ⟨1, h⟩
      · by_cases hinfo : info = none
        · refine .inl ⟨(sendOrder gw.send 0).2, by omega, ?_⟩
          have hso : stopsOk = true := by
            rcases stopsOk with _ | _
            · exact absurd ⟨rfl, hinfo⟩ hwid'
            · rfl
          simp [tryPhase, hbp, hms, hso, hinfo, hth1, hdone1]
        · obtain ⟨i, hinf⟩ : ∃ i, info = some i := by
            rcases info with _ | i
            · exact absurd rfl hinfo
            · exact ⟨i, rfl⟩
          by_cases hth2 : (sendOrder gw.send ((sendOrder gw.send 0).2)).1 = .throw
          · refine .inl ⟨(sendOrder gw.send 0).2 +
              (sendOrder gw.send ((sendOrder gw.send 0).2)).2, by omega, ?_⟩
            rcases hso : stopsOk with _ | _
            · simp [tryPhase, hbp, hms, hso, hinf, hth1, hdone1, hth2]
            · simp [tryPhase, hbp, hms, hso, hinf, hth1, hdone1, hth2]
          · by_cases hdone2 :
                (sendOrder gw.send ((sendOrder gw.send 0).2)).1 = .ok retcodeDone
            · refine .inr (.inr ⟨(sendOrder gw.send 0).2 +
                (sendOrder gw.send ((sendOrder gw.send 0).2)).2, by omega,
                .inr ?_, ?_⟩)
              · rcases hso : stopsOk with _ | _
                · simp [tryPhase, hbp, hms, hso, hinf, hth1, hdone1, hth2, hdone2]
                · simp [tryPhase, hbp, hms, hso, hinf, hth1, hdone1, hth2, hdone2]
              · rcases sendOrder_done hdone2 with h | h
                · exact ⟨(sendOrder gw.send 0).2, h⟩
                · exact ⟨(sendOrder gw.send 0).2 + 1, h⟩
            · refine .inr (.inl ⟨(sendOrder gw.send 0).2 +
                (sendOrder gw.send ((sendOrder gw.send 0).2)).2, by omega, ?_⟩)
              rcases hso : stopsOk with _ | _
              · simp [tryPhase, hbp, hms, hso, hinf, hth1, hdone1, hth2, hdone2]
              · simp [tryPhase, hbp, hms, hso, hinf, hth1, hdone1, hth2, hdone2]

lemma tryPhase_dispatch (hpow : ℚ → ℚ → ℚ) (env : FxEnv) (gw : Gw)
    (symbol side : String) (slPips tpPips : ℚ) (info : Option SymInfo)
    (now : ℚ) (st : ExecState) {out : ExecOut}
    (hout : out = tryPhase hpow env gw symbol side slPips tpPips info now st) :
    (∃ n, n ≤ 4 ∧ out = ⟨.ret .caught, lossState hpow now symbol st, n⟩) ∨
    (∃ n, n ≤ 4 ∧ out = ⟨.ret .execFailed, lossState hpow now symbol st, n⟩) ∨
    (∃ n, n ≤ 4 ∧
      (out = ⟨.ret (.success 1), winState hpow now symbol side st, n⟩ ∨
       out = ⟨.ret (.success 2), winState hpow now symbol side st, n⟩) ∧
      ∃ k, gw.send k = .ok retcodeDone) := by
  subst hout
  exact tryPhase_cases hpow env gw symbol side slPips tpPips info now st

/-- Exhaustive description of one `execute_trade` call: blocked (state
untouched, no gateway submission), an uncaught exception from one of the
pre-`try` gateway calls (state untouched), a failed symbol select (state
untouched), a caught exception or double rejection (trust penalised), or
a success (win bookkeeping, some `order_send` returned DONE); never more
than 4 `order_send` calls. -/
lemma executeTrade_cases (hpow : ℚ → ℚ → ℚ) (env : FxEnv) (gw : Gw)
    (symbol side : String) (slPips tpPips conf now : ℚ) (st : ExecState) :
    executeTrade hpow env gw symbol side slPips tpPips conf now st =
        ⟨.ret .blocked, st, 0⟩ ∨
    (executeTrade hpow env gw symbol side slPips tpPips conf now st =
        ⟨.raised, st, 0⟩ ∧
      (gw.info1 = .throw ∨ gw.selectOk = .throw ∨ gw.info1b = .throw ∨
       gw.infoNorm = .throw)) ∨
    executeTrade hpow env gw symbol side slPips tpPips conf now st =
        ⟨.ret .selectFailed, st, 0⟩ ∨
    (∃ n, n ≤ 4 ∧
      executeTrade hpow env gw symbol side slPips tpPips conf now st =
        ⟨.ret .caught, lossState hpow now symbol st, n⟩) ∨
    (∃ n, n ≤ 4 ∧
      executeTrade hpow env gw symbol side slPips tpPips conf now st =
        ⟨.ret .execFailed, lossState hpow now symbol st, n⟩) ∨
    (∃ n, n ≤ 4 ∧
      (executeTrade hpow env gw symbol side slPips tpPips conf now st =
          ⟨.ret (.success 1), winState hpow now symbol side st, n⟩ ∨
       executeTrade hpow env gw symbol side slPips tpPips conf now st =
          ⟨.ret (.success 2), winState hpow now symbol side st, n⟩) ∧
      ∃ k, gw.send k = .ok retcodeDone) := by
  by_cases hblock : (canOpenTrade env st gw.positions symbol side now).isSome
  · exact .inl (by simp [executeTrade, hblock])
  rcases hi1 : gw.info1 with _ | _ | i
  · exact .inr (.inl ⟨by simp [executeTrade, hblock, hi1], .inl rfl⟩)
  · rcases hsel : gw.selectOk with _ | _ | b
    · exact .inr (.inl ⟨by simp [executeTrade, hblock, hi1, hsel],
        .inr (.inl rfl)⟩)
    · exact .inr (.inr (.inl (by simp [executeTrade, hblock, hi1, hsel])))
    · cases b with
      | false =>
        exact .inr (.inr (.inl (by simp [executeTrade, hblock, hi1, hsel])))
      | true =>
        rcases hi1b : gw.info1b with _ | _ | i
        · exact .inr (.inl ⟨by simp [executeTrade, hblock, hi1, hsel, hi1b],
            .inr (.inr (.inl rfl))⟩)
        · rcases hn : gw.infoNorm with _ | _ | ni
          · exact .inr (.inl ⟨by
              simp [executeTrade, hblock, hi1, hsel, hi1b, hn],
              .inr (.inr (.inr rfl))⟩)
          · exact .inr (.inr (.inr (tryPhase_dispatch hpow env gw symbol side
              slPips tpPips none now st
              (by simp [executeTrade, hblock, hi1, hsel, hi1b, hn]))))
          · exact .inr (.inr (.inr (tryPhase_dispatch hpow env gw symbol side
              slPips tpPips none now st
              (by simp [executeTrade, hblock, hi1, hsel, hi1b, hn]))))
        · rcases hn : gw.infoNorm with _ | _ | ni
          · exact .inr (.inl ⟨by
              simp [executeTrade, hblock, hi1, hsel, hi1b, hn],
              .inr (.inr (.inr rfl))⟩)
          · exact .inr (.inr (.inr (tryPhase_dispatch hpow env gw symbol side
              slPips tpPips (some i) now st
              (by simp [executeTrade, hblock, hi1, hsel, hi1b, hn]))))
          · exact .inr (.inr (.inr (tryPhase_dispatch hpow env gw symbol side
              slPips tpPips (some i) now st
              (by simp [executeTrade, hblock, hi1, hsel, hi1b, hn]))))
  · rcases hn : gw.infoNorm with _ | _ | ni
    · exact .inr (.inl ⟨by simp [executeTrade, hblock, hi1, hn],
        .inr (.inr (.inr rfl))⟩)
    · exact .inr (.inr (.inr (tryPhase_dispatch hpow env gw symbol side
        slPips tpPips (some i) now st
        (by simp [executeTrade, hblock, hi1, hn]))))
    · exact .inr (.inr (.inr (tryPhase_dispatch hpow env gw symbol side
        slPips tpPips (some i) now st
        (by simp [executeTrade, hblock, hi1, hn]))))

/-! ## Claim theorems -/

lemma fxInit_inUnit : FxState.init.InUnit := by
  intro s
  norm_num [FxState.init]

lemma xauBand_sub_unit {x : ℚ} (h : xauTrustMin ≤ x ∧ x ≤ xauTrustMax) :
    0 ≤ x ∧ x ≤ 1 := by
  unfold xauTrustMin xauTrustMax at h
  constructor <;> linarith [h.1, h.2]

lemma idxInit_inUnit : IdxState.init.InUnit := by
  intro s r hr
  simp [IdxState.init] at hr

/-- C2: for every symbol and every finite sequence of trust updates
interleaved with reads, run from the initial store, the stored trust and
every value returned by the getter stay in `[0,1]` — in each of the
three trust-store implementations (FX, XAU, IDX).  The FX store's
half-life power is abstracted as `hpow`, assumed to lie in `[0,1]` on
positive arguments as the real `0.5 ** (s/h)` does. -/
theorem trust_bounds_all_engines (hpow : ℚ → ℚ → ℚ) (hb : HpowBounded hpow)
    (fxOps : List FxOp) (xauOps : List XauOp) (idxEnv : IdxEnv)
    (idxOps : List IdxOp) (s sk : String) :
    ((0 ≤ (runFx hpow fxOps FxState.init).1.trust s ∧
        (runFx hpow fxOps FxState.init).1.trust s ≤ 1) ∧
      ∀ v ∈ (runFx hpow fxOps FxState.init).2, 0 ≤ v ∧ v ≤ 1) ∧
    ((0 ≤ (runXau xauOps XauState.init).1.trust s ∧
        (runXau xauOps XauState.init).1.trust s ≤ 1) ∧
      ∀ v ∈ (runXau xauOps XauState.init).2, 0 ≤ v ∧ v ≤ 1) ∧
    ((0 ≤ idxGetTrust sk (runIdx idxEnv idxOps IdxState.init).1 s ∧
        idxGetTrust sk (runIdx idxEnv idxOps IdxState.init).1 s ≤ 1) ∧
      ∀ v ∈ (runIdx idxEnv idxOps IdxState.init).2, 0 ≤ v ∧ v ≤ 1) := by
  obtain ⟨hfx, hfxv⟩ := runFx_inUnit hb fxOps fxInit_inUnit
  obtain ⟨hxau, hxauv⟩ := runXau_inBand xauOps xauInit_inBand
  obtain ⟨hidx, hidxv⟩ := runIdx_inUnit idxEnv idxOps idxInit_inUnit
  refine ⟨⟨hfx s, hfxv⟩, ⟨xauBand_sub_unit (hxau s), ?_⟩,
    ⟨idxGetTrust_mem hidx sk s, hidxv⟩⟩
  intro v hv
  exact xauBand_sub_unit (hxauv v hv)

/-- Witness for C2 at a concrete instantiation: the constant half-power
`1/2` satisfies the bound hypothesis, and a short win/loss history for
symbol `EURUSD` keeps trust in `[0,1]`. -/
theorem trust_bounds_all_engines_witness :
    (0 ≤ (runFx (fun _ _ => 1/2)
        [.upd "EURUSD" true 0, .upd "EURUSD" false 10, .get "EURUSD" 20]
        FxState.init).1.trust "EURUSD" ∧
      (runFx (fun _ _ => 1/2)
        [.upd "EURUSD" true 0, .upd "EURUSD" false 10, .get "EURUSD" 20]
        FxState.init).1.trust "EURUSD" ≤ 1) := by
  have h := trust_bounds_all_engines (fun _ _ => 1/2)
    (fun s h hs hh => by norm_num)
    [.upd "EURUSD" true 0, .upd "EURUSD" false 10, .get "EURUSD" 20]
    [] ⟨true, 1/5, 1/50, 3/100, 1/200, 50⟩ [] "EURUSD" "2025-01-01"
  exact h.1.1

/-- C10: in the XAU trust engine, for any sequence of updates and decay
steps run from the initial store, every stored trust value and every
getter return stays in the band `[0.40, 0.95]`. -/
theorem xau_trust_band (ops : List XauOp) (s : String) :
    (xauTrustMin ≤ (runXau ops XauState.init).1.trust s ∧
      (runXau ops XauState.init).1.trust s ≤ xauTrustMax) ∧
    ∀ v ∈ (runXau ops XauState.init).2,
      xauTrustMin ≤ v ∧ v ≤ xauTrustMax := by
  obtain ⟨hst, hv⟩ := runXau_inBand ops xauInit_inBand
  exact ⟨hst s, hv⟩

lemma clamp01_of_mem {x : ℚ} (h0 : 0 ≤ x) (h1 : x ≤ 1) : clamp01 x = x := by
  unfold clamp01
  rw [min_eq_right h1, max_eq_right h0]

lemma fxGet_at_now (hpow : ℚ → ℚ → ℚ) {now : ℚ} {symbol : String}
    {st : FxState} (h : st.last symbol = now) :
    (fxGet hpow now symbol st).1 = clamp01 (st.trust symbol) ∧
    (fxGet hpow now symbol st).2.trust symbol = st.trust symbol ∧
    (fxGet hpow now symbol st).2.last symbol = now := by
  have hd : fxDecay hpow (st.trust symbol) (now - st.last symbol) (180 * 60)
      = st.trust symbol := by
    unfold fxDecay
    rw [h, sub_self]
    norm_num
  simp [fxGet, hd]

lemma fxUpdate_at_now (hpow : ℚ → ℚ → ℚ) {now : ℚ} {symbol : String}
    {st : FxState} (h : st.last symbol = now) (won : Bool) :
    (fxUpdate hpow now symbol won st).trust symbol =
      clamp01 (clamp01 (st.trust symbol) +
        if won then 5/100 else -(8/100)) ∧
    (fxUpdate hpow now symbol won st).last symbol = now := by
  obtain ⟨h1, h2, h3⟩ := fxGet_at_now hpow h
  constructor
  · simp [fxUpdate, h1]
  · simp [fxUpdate, h3]

/-- One win update at the instant of the last read adds 0.05 (no decay,
no clamping effect inside `[0,1]`). -/
lemma fxUpdate_win_val (hpow : ℚ → ℚ → ℚ) {now : ℚ} {symbol : String}
    {st : FxState} (h : st.last symbol = now) {a b : ℚ}
    (ht : st.trust symbol = a) (h0 : 0 ≤ a) (h1 : a + 5/100 ≤ 1)
    (hab : a + 5/100 = b) :
    (fxUpdate hpow now symbol true st).trust symbol = b ∧
    (fxUpdate hpow now symbol true st).last symbol = now := by
  obtain ⟨ht', hl'⟩ := fxUpdate_at_now hpow h true
  refine ⟨?_, hl'⟩
  rw [ht', ht, if_pos rfl, clamp01_of_mem h0 (by linarith), hab,
    clamp01_of_mem (by linarith) (by linarith)]

lemma fx_three_wins (hpow : ℚ → ℚ → ℚ) :
    (runFx hpow [.upd "EURUSD" true 0] FxState.init).1.trust "EURUSD"
        = 11/20 ∧
    (runFx hpow [.upd "EURUSD" true 0, .upd "EURUSD" true 0]
        FxState.init).1.trust "EURUSD" = 3/5 ∧
    (runFx hpow [.upd "EURUSD" true 0, .upd "EURUSD" true 0,
        .upd "EURUSD" true 0] FxState.init).1.trust "EURUSD" = 13/20 := by
  have hl0 : FxState.init.last "EURUSD" = (0 : ℚ) := rfl
  have ht0 : FxState.init.trust "EURUSD" = 1/2 := rfl
  obtain ⟨ht1, hl1⟩ := fxUpdate_win_val hpow hl0 ht0
    (by norm_num) (by norm_num) (by norm_num : (1:ℚ)/2 + 5/100 = 11/20)
  obtain ⟨ht2, hl2⟩ := fxUpdate_win_val hpow hl1 ht1
    (by norm_num) (by norm_num) (by norm_num : (11:ℚ)/20 + 5/100 = 3/5)
  obtain ⟨ht3, _⟩ := fxUpdate_win_val hpow hl2 ht2
    (by norm_num) (by norm_num) (by norm_num : (3:ℚ)/5 + 5/100 = 13/20)
  have hr1 : (runFx hpow [.upd "EURUSD" true 0] FxState.init).1
      = fxUpdate hpow 0 "EURUSD" true FxState.init := by
    simp [runFx]
  have hr2 : (runFx hpow [.upd "EURUSD" true 0, .upd "EURUSD" true 0]
      FxState.init).1 = fxUpdate hpow 0 "EURUSD" true
        (fxUpdate hpow 0 "EURUSD" true FxState.init) := by
    simp [runFx]
  have hr3 : (runFx hpow [.upd "EURUSD" true 0, .upd "EURUSD" true 0,
      .upd "EURUSD" true 0] FxState.init).1
      = fxUpdate hpow 0 "EURUSD" true (fxUpdate hpow 0 "EURUSD" true
        (fxUpdate hpow 0 "EURUSD" true FxState.init)) := by
    simp [runFx]
  exact ⟨by rw [hr1]; exact ht1, by rw [hr2]; exact ht2,
    by rw [hr3]; exact ht3⟩

/-- C4 counterexample: two consecutive win updates at the same instant
take the FX trust store from 0.5 to 0.60, not to the 0.595 the
`LR = 0.1` learning-rate model (`trust + 0.1*(1-trust)`) predicts. -/
theorem fx_trust_not_learning_rate_counterexample :
    (runFx (fun _ _ => 1/2) [.upd "EURUSD" true 0, .upd "EURUSD" true 0]
        FxState.init).1.trust "EURUSD" = 3/5 ∧
    (1/2 + 1/10 * (1 - (1/2 : ℚ))) + 1/10 * (1 - (1/2 + 1/10 * (1 - (1/2 : ℚ))))
        ≠ 3/5 := by
  constructor
  · exact (fx_three_wins (fun _ _ => 1/2)).2.1
  · norm_num

/-- C4 amended: the FX trust engine updates additively — `+0.05` on a
win, `-0.08` on a loss, clamped to `[0,1]` after the decay-on-read —
so from the neutral 0.5, three consecutive wins at one instant trace
0.5 → 0.55 → 0.60 → 0.65, whatever the half-life power is. -/
theorem fx_trust_additive_trajectory (hpow : ℚ → ℚ → ℚ) :
    (runFx hpow [.upd "EURUSD" true 0] FxState.init).1.trust "EURUSD"
        = 11/20 ∧
    (runFx hpow [.upd "EURUSD" true 0, .upd "EURUSD" true 0]
        FxState.init).1.trust "EURUSD" = 3/5 ∧
    (runFx hpow [.upd "EURUSD" true 0, .upd "EURUSD" true 0,
        .upd "EURUSD" true 0] FxState.init).1.trust "EURUSD" = 13/20 :=
  fx_three_wins hpow

/-- C8 counterexample: in the IDX trust engine, reading a never-seen
symbol returns 0.0, not the neutral 0.5. -/
theorem idx_fresh_trust_counterexample :
    idxGetTrust "2025-01-01" IdxState.init "US500" = 0 ∧
    (0 : ℚ) ≠ 1/2 := by
  constructor
  · decide
  · norm_num

/-- C8 amended: reading a never-seen symbol is never an error, but the
default differs per engine: the FX getter returns 0.5 (for any clock and
any half-life power), the IDX getter returns 0.0, and the XAU getter
returns 0.5 only while the decay horizon has not elapsed since time 0 —
afterwards (always, for realistic epoch clocks) it returns 0.49. -/
theorem fresh_symbol_trust_defaults (hpow : ℚ → ℚ → ℚ) (now : ℚ)
    (s sk : String) :
    (fxGet hpow now s FxState.init).1 = 1/2 ∧
    idxGetTrust sk IdxState.init s = 0 ∧
    (now - 0 ≤ xauHorizonSec → (xauGetScore now s XauState.init).1 = 1/2) ∧
    (xauHorizonSec < now - 0 →
      (xauGetScore now s XauState.init).1 = 49/100) := by
  refine ⟨?_, ?_, ?_, ?_⟩
  · have hfst : (fxGet hpow now s FxState.init).1
        = clamp01 (fxDecay hpow (1/2) (now - 0) (180 * 60)) := rfl
    have hdec : fxDecay hpow (1/2) (now - 0) (180 * 60) = 1/2 := by
      unfold fxDecay
      split_ifs <;> ring
    rw [hfst, hdec, clamp01_of_mem (by norm_num) (by norm_num)]
  · simp [idxGetTrust, idxRecOf, IdxState.init, IdxRec.fresh]
  · intro h
    have hlt : ¬ xauHorizonSec < now := not_lt.mpr (by linarith)
    simp [xauGetScore, xauDecay, XauState.init, hlt]
  · intro h
    have hlt : xauHorizonSec < now := by linarith
    simp [xauGetScore, xauDecay, XauState.init, hlt, xauTrustMin]
    norm_num

/-- Witness for C8 amended: concrete reads at clock 0 (inside the
horizon) and at a realistic epoch clock (outside it). -/
theorem fresh_symbol_trust_defaults_witness :
    (xauGetScore 0 "XAUUSD" XauState.init).1 = 1/2 ∧
    (xauGetScore 1700000000 "XAUUSD" XauState.init).1 = 49/100 := by
  constructor
  · exact (fresh_symbol_trust_defaults (fun _ _ => 1/2) 0 "XAUUSD"
      "k").2.2.1 (by norm_num [xauHorizonSec])
  · exact (fresh_symbol_trust_defaults (fun _ _ => 1/2) 1700000000 "XAUUSD"
      "k").2.2.2 (by norm_num [xauHorizonSec])

/-- C6: the guardrail check evaluates its four conditions in the fixed
order global cap → per-symbol cap → cooldown → same-direction,
short-circuiting on the first failure; in particular, whenever the
global cap is hit the reported reason is `global_cap` no matter what the
other checks would say. -/
theorem guardrail_check_order (env : FxEnv) (st : ExecState)
    (posRes : GwRes (List Position)) (symbol side : String) (now : ℚ) :
    (totalActive env (effectivePositions posRes) ≥ env.agentMaxOpen →
      canOpenTrade env st posRes symbol side now = some .global_cap) ∧
    (totalActive env (effectivePositions posRes) < env.agentMaxOpen →
     perSymbolCount env (effectivePositions posRes) symbol ≥
        env.agentMaxPerSymbol →
      canOpenTrade env st posRes symbol side now = some .symbol_cap) ∧
    (totalActive env (effectivePositions posRes) < env.agentMaxOpen →
     perSymbolCount env (effectivePositions posRes) symbol <
        env.agentMaxPerSymbol →
     now - st.lastTradeTime symbol < env.cooldownSec →
      canOpenTrade env st posRes symbol side now = some .cooldown) ∧
    (totalActive env (effectivePositions posRes) < env.agentMaxOpen →
     perSymbolCount env (effectivePositions posRes) symbol <
        env.agentMaxPerSymbol →
     ¬ (now - st.lastTradeTime symbol < env.cooldownSec) →
     (env.blockSameDirection ∧ st.lastDirection symbol = some side) →
      canOpenTrade env st posRes symbol side now = some .same_direction) ∧
    (totalActive env (effectivePositions posRes) < env.agentMaxOpen →
     perSymbolCount env (effectivePositions posRes) symbol <
        env.agentMaxPerSymbol →
     ¬ (now - st.lastTradeTime symbol < env.cooldownSec) →
     ¬ (env.blockSameDirection ∧ st.lastDirection symbol = some side) →
      canOpenTrade env st posRes symbol side now = none) := by
  refine ⟨fun h1 => ?_, fun h1 h2 => ?_, fun h1 h2 h3 => ?_,
    fun h1 h2 h3 h4 => ?_, fun h1 h2 h3 h4 => ?_⟩
  · simp only [canOpenTrade]
    rw [if_pos h1]
  · simp only [canOpenTrade]
    rw [if_neg (not_le.mpr h1), if_pos h2]
  · simp only [canOpenTrade]
    rw [if_neg (not_le.mpr h1), if_neg (not_le.mpr h2), if_pos h3]
  · simp only [canOpenTrade]
    rw [if_neg (not_le.mpr h1), if_neg (not_le.mpr h2), if_neg h3,
      if_pos h4]
  · simp only [canOpenTrade]
    rw [if_neg (not_le.mpr h1), if_neg (not_le.mpr h2), if_neg h3,
      if_neg h4]

/-- Witness for C6: with caps `max_open = 2`, `max_per_symbol = 1`, two
open positions of which one is on the symbol, both caps are exceeded and
the reported reason is the global cap. -/
theorem guardrail_check_order_witness :
    canOpenTrade ⟨[], 2, 1, 180, false, 2, ⟨true, 1/100, 1/2, fun _ => none⟩⟩
      ⟨fun _ => 0, fun _ => none, FxState.init⟩
      (.ok [⟨"EURUSD"⟩, ⟨"GBPUSD"⟩]) "EURUSD" "LONG" 1000
      = some .global_cap := by
  apply (guardrail_check_order
    ⟨[], 2, 1, 180, false, 2, ⟨true, 1/100, 1/2, fun _ => none⟩⟩
    ⟨fun _ => 0, fun _ => none, FxState.init⟩
    (.ok [⟨"EURUSD"⟩, ⟨"GBPUSD"⟩]) "EURUSD" "LONG" 1000).1
  decide

/-- C7 counterexample: with `min_lots = max_lots-compatible` env and a
venue whose `volume_min = 0.05` is not a multiple of
`volume_step = 0.04`, confidence 0 yields the lot 0.05, and
`_normalize_volume` snaps it to 0.04 — outside `[volume_min,
volume_max]`, because the code clamps before rounding and never
re-clamps after. -/
theorem lot_normalization_counterexample :
    computeLot ⟨true, 1/20, 1/2, fun _ => none⟩ "EURUSD" 0 = 1/20 ∧
    normalizeVolumeCore ⟨5, 1/10000, 0, 1/20, 1, 1/25⟩ (1/20) = 1/25 ∧
    ¬ ((1/20 : ℚ) ≤ 1/25) := by
  refine ⟨?_, ?_, by norm_num⟩
  · have h1 : computeLot ⟨true, 1/20, 1/2, fun _ => none⟩ "EURUSD" 0
        = pyRound (1/20) 3 := by
      simp [computeLot]
    rw [h1]
    exact pyRound_eq_self 50 (by norm_num)
  · have h2 : roundHE ((5 : ℚ) / 4) = 1 := by
      unfold roundHE
      norm_num [Int.fract]
    have h3 : normalizeVolumeCore ⟨5, 1/10000, 0, 1/20, 1, 1/25⟩ (1/20)
        = pyRound (1/25) 8 := by
      simp [normalizeVolumeCore, orDefault]
      norm_num [h2]
    rw [h3]
    exact pyRound_eq_self 4000000 (by norm_num)

/-- C7 amended: `compute_lot` depends on confidence only (trust is not
an input); for any confidence it stays in `[min_lots, max_lots]`
provided `min_lots ≤ max_lots` and both are 3-decimal values.
`_normalize_volume` clamps to `[volume_min, volume_max]` FIRST and then
rounds to the nearest step multiple with no re-clamp; its result is a
multiple of `volume_step` provided the step is a positive 8-decimal
value, and stays inside `[volume_min, volume_max]` provided both bounds
are themselves integer multiples of the step. -/
theorem lot_bounds_and_step_multiple (env : LotEnv) (symbol : String)
    (confidence : ℚ) (info : SymInfo) (kmin kmax m a b : ℤ)
    (hdyn : env.dynamicLots = true)
    (hminmax : env.minLots ≤ env.maxLots)
    (hkmin : env.minLots * 10 ^ 3 = (kmin : ℚ))
    (hkmax : env.maxLots * 10 ^ 3 = (kmax : ℚ))
    (hstep : 0 < orDefault info.volumeStep (1/100))
    (hm : orDefault info.volumeStep (1/100) * 10 ^ 8 = (m : ℚ))
    (ha : orDefault info.volumeMin (1/100)
        = (a : ℚ) * orDefault info.volumeStep (1/100))
    (hb : orDefault info.volumeMax 100
        = (b : ℚ) * orDefault info.volumeStep (1/100))
    (hab : orDefault info.volumeMin (1/100) ≤ orDefault info.volumeMax 100) :
    (env.minLots ≤ computeLot env symbol confidence ∧
     computeLot env symbol confidence ≤ env.maxLots) ∧
    (∃ k : ℤ, normalizeVolumeCore info (computeLot env symbol confidence)
        = (k : ℚ) * orDefault info.volumeStep (1/100)) ∧
    orDefault info.volumeMin (1/100) ≤
      normalizeVolumeCore info (computeLot env symbol confidence) ∧
    normalizeVolumeCore info (computeLot env symbol confidence) ≤
      orDefault info.volumeMax 100 := by
  set vmin := orDefault info.volumeMin (1/100) with hvmin
  set vmax := orDefault info.volumeMax 100 with hvmax
  set vstep := orDefault info.volumeStep (1/100) with hvstep
  -- the dynamic branch of compute_lot
  have hlotdef : computeLot env symbol confidence =
      pyRound (env.minLots + (env.maxLots - env.minLots) *
        (max 0 (min 1 confidence))) 3 := by
    simp [computeLot, hdyn]
  have hc0 : (0:ℚ) ≤ max 0 (min 1 confidence) := le_max_left _ _
  have hc1 : max 0 (min 1 confidence) ≤ 1 :=
    max_le (by norm_num) (min_le_left _ _)
  have hxlo : env.minLots ≤ env.minLots + (env.maxLots - env.minLots) *
      (max 0 (min 1 confidence)) := by nlinarith
  have hxhi : env.minLots + (env.maxLots - env.minLots) *
      (max 0 (min 1 confidence)) ≤ env.maxLots := by nlinarith
  have hlot1 : env.minLots ≤ computeLot env symbol confidence := by
    rw [hlotdef]
    exact le_pyRound kmin hkmin hxlo
  have hlot2 : computeLot env symbol confidence ≤ env.maxLots := by
    rw [hlotdef]
    exact pyRound_le kmax hkmax hxhi
  refine ⟨⟨hlot1, hlot2⟩, ?_⟩
  -- the snapped volume
  set L := computeLot env symbol confidence
  set l := max vmin (min vmax L) with hldef
  have hl1 : vmin ≤ l := le_max_left _ _
  have hl2 : l ≤ vmax := max_le hab (min_le_left _ _)
  set steps := roundHE (l / vstep) with hsteps
  have hstepsa : a ≤ steps := by
    apply le_roundHE
    rw [le_div_iff₀ hstep]
    rw [ha] at hl1
    linarith
  have hstepsb : steps ≤ b := by
    apply roundHE_le
    rw [div_le_iff₀ hstep]
    rw [hb] at hl2
    linarith
  have hval : normalizeVolumeCore info L = (steps : ℚ) * vstep := by
    have : normalizeVolumeCore info L = pyRound ((steps : ℚ) * vstep) 8 := by
      simp only [normalizeVolumeCore, ← hvmin, ← hvmax, ← hvstep, ← hldef,
        ← hsteps]
    rw [this]
    apply pyRound_eq_self (steps * m)
    rw [mul_assoc, hm]
    push_cast
    ring
  refine ⟨⟨steps, hval⟩, ?_, ?_⟩
  · rw [hval, ha]
    have : (a : ℚ) ≤ (steps : ℚ) := by exact_mod_cast hstepsa
    exact mul_le_mul_of_nonneg_right this (le_of_lt hstep)
  · rw [hval, hb]
    have : (steps : ℚ) ≤ (b : ℚ) := by exact_mod_cast hstepsb
    exact mul_le_mul_of_nonneg_right this (le_of_lt hstep)

/-- Witness for C7 amended: a standard venue (`volume_min = 0.01`,
`volume_max = 100`, `volume_step = 0.01`) and `min_lots = 0.01`,
`max_lots = 0.50`, confidence 0.75. -/
theorem lot_bounds_and_step_multiple_witness :
    (1:ℚ)/100 ≤ computeLot ⟨true, 1/100, 1/2, fun _ => none⟩ "EURUSD" (3/4) ∧
    computeLot ⟨true, 1/100, 1/2, fun _ => none⟩ "EURUSD" (3/4) ≤ 1/2 := by
  exact (lot_bounds_and_step_multiple
    ⟨true, 1/100, 1/2, fun _ => none⟩ "EURUSD" (3/4)
    ⟨5, 1/10000, 0, 1/100, 100, 1/100⟩ 10 500 1000000 1 10000
    rfl (by norm_num) (by norm_num) (by norm_num)
    (by norm_num [orDefault]) (by norm_num [orDefault])
    (by norm_num [orDefault]) (by norm_num [orDefault])
    (by norm_num [orDefault])).1

/-! ### Concrete fixtures used by the executor and decider scenarios -/

/-- A plain venue symbol record. -/
def sampleInfo : SymInfo := ⟨5, 1/10000, 0, 1/100, 100, 1/100⟩

/-- A permissive executor environment (caps far away, cooldown over,
same-direction blocking off, dynamic lots on). -/
def permissiveEnv : FxEnv :=
  ⟨[], 10, 3, 180, false, 2, ⟨true, 1/100, 1/2, fun _ => none⟩⟩

/-- The executor's initial runtime state: empty cooldown and direction
dictionaries, fresh trust store. -/
def initExecState : ExecState := ⟨fun _ => 0, fun _ => none, FxState.init⟩

/-- A gateway that answers every metadata call normally and rejects
every `order_send` with a non-success retcode. -/
def rejectAllGw : Gw :=
  ⟨.ok [], .ok sampleInfo, .ok true, .ok sampleInfo, .ok sampleInfo,
   .ok ⟨1, 1⟩, .ok sampleInfo, .ok sampleInfo, fun _ => .ok 1⟩

/-- The same gateway except that the first `symbol_info` call raises. -/
def throwInfoGw : Gw := { rejectAllGw with info1 := .throw }

/-- The same gateway except that every `order_send` succeeds. -/
def fillAllGw : Gw := { rejectAllGw with send := fun _ => .ok retcodeDone }

/-- The constant half-power, standing in for `0.5 ** (s/h)` at `s = h`. -/
def constHalf : ℚ → ℚ → ℚ := fun _ _ => 1/2

lemma canOpen_fixture :
    canOpenTrade permissiveEnv initExecState (.ok []) "EURUSD" "LONG" 1000
      = none := by
  simp only [canOpenTrade]
  rw [if_neg (by decide), if_neg (by decide),
    if_neg (by norm_num [initExecState, permissiveEnv]),
    if_neg (by decide)]

lemma executeTrade_rejectAll_eq :
    executeTrade constHalf permissiveEnv rejectAllGw "EURUSD" "LONG"
      40 90 (1/2) 1000 initExecState
    = tryPhase constHalf permissiveEnv rejectAllGw "EURUSD" "LONG"
      40 90 (some sampleInfo) 1000 initExecState := by
  simp [executeTrade, rejectAllGw, canOpen_fixture]

lemma executeTrade_throwInfo_eq :
    executeTrade constHalf permissiveEnv throwInfoGw "EURUSD" "LONG"
      40 90 (1/2) 1000 initExecState
    = ⟨.raised, initExecState, 0⟩ := by
  simp [executeTrade, throwInfoGw, rejectAllGw, canOpen_fixture]

lemma executeTrade_fillAll_eq :
    executeTrade constHalf permissiveEnv fillAllGw "EURUSD" "LONG"
      40 90 (1/2) 1000 initExecState
    = tryPhase constHalf permissiveEnv fillAllGw "EURUSD" "LONG"
      40 90 (some sampleInfo) 1000 initExecState := by
  simp [executeTrade, fillAllGw, rejectAllGw, canOpen_fixture]

/-- C1 counterexample: a gateway that rejects every submission makes one
`execute_trade` call issue 4 `order_send` calls — `_send_order` retries
the FOK filling mode internally on each of the two widen attempts — so
the 2-submission bound is violated at the gateway. -/
theorem executor_send_bound_counterexample :
    (executeTrade constHalf permissiveEnv rejectAllGw "EURUSD" "LONG"
      40 90 (1/2) 1000 initExecState).sends = 4 ∧
    ¬ ((executeTrade constHalf permissiveEnv rejectAllGw "EURUSD" "LONG"
      40 90 (1/2) 1000 initExecState).sends ≤ 2) := by
  rw [executeTrade_rejectAll_eq]
  constructor
  · decide
  · decide

/-- C1 amended: one `execute_trade` call issues at most 2 `_send_order`
attempts, each of which issues at most 2 gateway `order_send` calls (IOC
then a one-shot FOK fallback), so at most 4 gateway submissions in
total, whatever the gateway answers; the executor never loops. -/
theorem executor_send_bound (hpow : ℚ → ℚ → ℚ) (env : FxEnv) (gw : Gw)
    (symbol side : String) (slPips tpPips conf now : ℚ) (st : ExecState) :
    (executeTrade hpow env gw symbol side slPips tpPips conf now st).sends
      ≤ 4 := by
  rcases executeTrade_cases hpow env gw symbol side slPips tpPips conf now st
    with h | ⟨h, _⟩ | h | ⟨n, hn, h⟩ | ⟨n, hn, h⟩ | ⟨n, hn, h, _⟩
  · rw [h]; norm_num
  · rw [h]; norm_num
  · rw [h]; norm_num
  · rw [h]; exact hn
  · rw [h]; exact hn
  · rcases h with h | h <;> rw [h] <;> exact hn

/-- C5 counterexample: when the pre-`try` `symbol_info` gateway call
raises, the exception propagates out of `execute_trade` and the trust
store is left untouched — no loss update, no structured failure. -/
theorem executor_exception_counterexample :
    (executeTrade constHalf permissiveEnv throwInfoGw "EURUSD" "LONG"
      40 90 (1/2) 1000 initExecState).result = .raised ∧
    (executeTrade constHalf permissiveEnv throwInfoGw "EURUSD" "LONG"
      40 90 (1/2) 1000 initExecState).state.fxTrust.trust "EURUSD"
      = FxState.init.trust "EURUSD" := by
  rw [executeTrade_throwInfo_eq]
  exact ⟨rfl, rfl⟩

/-- C5 amended: an exception can escape `execute_trade` only from the
four gateway calls that precede the `try` block (`symbol_info`,
`symbol_select`, the post-select `symbol_info`, and the `symbol_info`
inside `_normalize_volume`); every exception arising from the `try`
phase (tick/info/stops lookups and `order_send`) is caught, the trust
store is penalised with a loss, and the `caught` failure dictionary is
returned. -/
theorem executor_exception_scope (hpow : ℚ → ℚ → ℚ) (env : FxEnv)
    (gw : Gw) (symbol side : String) (slPips tpPips conf now : ℚ)
    (st : ExecState) :
    ((executeTrade hpow env gw symbol side slPips tpPips conf now st).result
        = .raised →
      gw.info1 = .throw ∨ gw.selectOk = .throw ∨ gw.info1b = .throw ∨
        gw.infoNorm = .throw) ∧
    ((executeTrade hpow env gw symbol side slPips tpPips conf now st).result
        = .ret .caught →
      (executeTrade hpow env gw symbol side slPips tpPips conf now st).state
        = lossState hpow now symbol st) := by
  rcases executeTrade_cases hpow env gw symbol side slPips tpPips conf now st
    with h | ⟨h, hgw⟩ | h | ⟨n, hn, h⟩ | ⟨n, hn, h⟩ | ⟨n, hn, h, _⟩
  · rw [h]
    exact ⟨fun hr => by simp at hr, fun hr => by simp at hr⟩
  · rw [h]
    exact ⟨fun _ => hgw, fun hr => by simp at hr⟩
  · rw [h]
    exact ⟨fun hr => by simp at hr, fun hr => by simp at hr⟩
  · rw [h]
    exact ⟨fun hr => by simp at hr, fun _ => rfl⟩
  · rw [h]
    exact ⟨fun hr => by simp at hr, fun hr => by simp at hr⟩
  · rcases h with h | h <;> rw [h] <;>
      exact ⟨fun hr => by simp at hr, fun hr => by simp at hr⟩

/-- Witness for C5 amended: at the all-rejecting gateway no exception
escapes, so the `raised` antecedent at the throwing gateway is
exercised through the first conjunct instead: with `info1 = .throw` the
theorem pins the propagation on one of the pre-`try` calls. -/
theorem executor_exception_scope_witness :
    throwInfoGw.info1 = .throw ∨ throwInfoGw.selectOk = .throw ∨
      throwInfoGw.info1b = .throw ∨ throwInfoGw.infoNorm = .throw := by
  exact (executor_exception_scope constHalf permissiveEnv throwInfoGw
    "EURUSD" "LONG" 40 90 (1/2) 1000 initExecState).1
    (by rw [executeTrade_throwInfo_eq])

/-- Success of an `execute_trade` call (a filled order on attempt 1
or 2). -/
def isSuccessRes (r : Outcome) : Prop :=
  r = .ret (.success 1) ∨ r = .ret (.success 2)

/-- C9: evaluating the guardrail check mutates nothing — a blocked call
returns with the whole state untouched and zero gateway submissions —
and `last_trade_time` / `last_direction` change only when some
`order_send` returned the success retcode, in which case they are set
to the fill's time and direction. -/
theorem guardrail_state_frame (hpow : ℚ → ℚ → ℚ) (env : FxEnv) (gw : Gw)
    (symbol side : String) (slPips tpPips conf now : ℚ) (st : ExecState) :
    ((executeTrade hpow env gw symbol side slPips tpPips conf now st).result
        = .ret .blocked →
      (executeTrade hpow env gw symbol side slPips tpPips conf now st).state
          = st ∧
      (executeTrade hpow env gw symbol side slPips tpPips conf now st).sends
          = 0) ∧
    (¬ isSuccessRes
        (executeTrade hpow env gw symbol side slPips tpPips conf now st).result →
      (executeTrade hpow env gw symbol side slPips tpPips conf now
          st).state.lastTradeTime = st.lastTradeTime ∧
      (executeTrade hpow env gw symbol side slPips tpPips conf now
          st).state.lastDirection = st.lastDirection) ∧
    (isSuccessRes
        (executeTrade hpow env gw symbol side slPips tpPips conf now st).result →
      (executeTrade hpow env gw symbol side slPips tpPips conf now
          st).state.lastTradeTime symbol = now ∧
      (executeTrade hpow env gw symbol side slPips tpPips conf now
          st).state.lastDirection symbol = some side ∧
      ∃ k, gw.send k = .ok retcodeDone) := by
  rcases executeTrade_cases hpow env gw symbol side slPips tpPips conf now st
    with h | ⟨h, _⟩ | h | ⟨n, hn, h⟩ | ⟨n, hn, h⟩ | ⟨n, hn, h, hk⟩
  · rw [h]
    exact ⟨fun _ => ⟨rfl, rfl⟩, fun _ => ⟨rfl, rfl⟩,
      fun hr => by rcases hr with hr | hr <;> simp at hr⟩
  · rw [h]
    exact ⟨fun hr => by simp at hr, fun _ => ⟨rfl, rfl⟩,
      fun hr => by rcases hr with hr | hr <;> simp at hr⟩
  · rw [h]
    exact ⟨fun hr => by simp at hr, fun _ => ⟨rfl, rfl⟩,
      fun hr => by rcases hr with hr | hr <;> simp at hr⟩
  · rw [h]
    exact ⟨fun hr => by simp at hr, fun _ => ⟨rfl, rfl⟩,
      fun hr => by rcases hr with hr | hr <;> simp at hr⟩
  · rw [h]
    exact ⟨fun hr => by simp at hr, fun _ => ⟨rfl, rfl⟩,
      fun hr => by rcases hr with hr | hr <;> simp at hr⟩
  · rcases h with h | h <;> rw [h]
    · refine ⟨fun hr => by simp at hr, fun hr => ?_, fun _ => ?_⟩
      · exact absurd (.inl rfl) hr
      · exact ⟨by simp [winState], by simp [winState], hk⟩
    · refine ⟨fun hr => by simp at hr, fun hr => ?_, fun _ => ?_⟩
      · exact absurd (.inr rfl) hr
      · exact ⟨by simp [winState], by simp [winState], hk⟩

/-- Witness for C9: at the always-filling gateway the call succeeds on
attempt 1 and stamps the cooldown dictionaries with the fill time and
direction. -/
theorem guardrail_state_frame_witness :
    (executeTrade constHalf permissiveEnv fillAllGw "EURUSD" "LONG"
      40 90 (1/2) 1000 initExecState).state.lastTradeTime "EURUSD" = 1000 ∧
    (executeTrade constHalf permissiveEnv fillAllGw "EURUSD" "LONG"
      40 90 (1/2) 1000 initExecState).state.lastDirection "EURUSD"
      = some "LONG" := by
  have hres : (executeTrade constHalf permissiveEnv fillAllGw "EURUSD"
      "LONG" 40 90 (1/2) 1000 initExecState).result
      = .ret (.success 1) := by
    rw [executeTrade_fillAll_eq]
    decide
  have h := (guardrail_state_frame constHalf permissiveEnv fillAllGw
    "EURUSD" "LONG" 40 90 (1/2) 1000 initExecState).2.2 (.inl hres)
  exact ⟨h.1, h.2.1⟩

/-- The constant “sigmoid”, standing in for `1/(1+exp(-x))` at a fixed
score; the decider's state effect is independent of its value. -/
def sigHalf : ℚ → ℚ := fun _ => 1/2

/-- C3 counterexample: one `decide_signal` call at clock 100 on the
fresh trust store writes the read timestamp 100 into the store — the
call mutates state outside the decision it returns. -/
theorem decider_mutation_counterexample :
    (decideSignal sigHalf constHalf ⟨60, 40, 40, 90, 55/100⟩
      ⟨"EURUSD", 60, 1/1000, 2/1000⟩ 100 FxState.init).2.last "EURUSD"
      = 100 ∧
    FxState.init.last "EURUSD" = 0 ∧
    (decideSignal sigHalf constHalf ⟨60, 40, 40, 90, 55/100⟩
      ⟨"EURUSD", 60, 1/1000, 2/1000⟩ 100 FxState.init).2 ≠ FxState.init := by
  refine ⟨rfl, rfl, fun h => ?_⟩
  have h100 := congrArg (fun st => FxState.last st "EURUSD") h
  simp only at h100
  have : (100 : ℚ) = 0 := h100
  norm_num at this

/-- C3 amended: `decide_signal` is a function of the feature snapshot,
the configuration, the trust-store state and the clock, but it mutates
the trust store through its embedded `get_trust_level` read: the decided
symbol's record gets the decay-adjusted trust and the current timestamp
written back, while every other symbol's record is untouched. -/
theorem decider_state_effect (sigmoid : ℚ → ℚ) (hpow : ℚ → ℚ → ℚ)
    (env : DecEnv) (feats : Feats) (now : ℚ) (st : FxState) (s : String)
    (h : s ≠ feats.symbol) :
    ((decideSignal sigmoid hpow env feats now st).2.trust s = st.trust s ∧
     (decideSignal sigmoid hpow env feats now st).2.last s = st.last s) ∧
    (decideSignal sigmoid hpow env feats now st).2.last feats.symbol = now ∧
    (decideSignal sigmoid hpow env feats now st).2.trust feats.symbol
      = fxDecay hpow (st.trust feats.symbol) (now - st.last feats.symbol)
          (180 * 60) := by
  have hsnd : (decideSignal sigmoid hpow env feats now st).2
      = (fxGet hpow now feats.symbol st).2 := rfl
  rw [hsnd]
  simp [fxGet, h]

/-- Witness for C3 amended: a symbol different from the decided one
keeps its trust and timestamp across the call. -/
theorem decider_state_effect_witness :
    (decideSignal sigHalf constHalf ⟨60, 40, 40, 90, 55/100⟩
      ⟨"EURUSD", 60, 1/1000, 2/1000⟩ 100 FxState.init).2.trust "GBPUSD"
      = FxState.init.trust "GBPUSD" ∧
    (decideSignal sigHalf constHalf ⟨60, 40, 40, 90, 55/100⟩
      ⟨"EURUSD", 60, 1/1000, 2/1000⟩ 100 FxState.init).2.last "GBPUSD"
      = FxState.init.last "GBPUSD" := by
  exact (decider_state_effect sigHalf constHalf ⟨60, 40, 40, 90, 55/100⟩
    ⟨"EURUSD", 60, 1/1000, 2/1000⟩ 100 FxState.init "GBPUSD"
    (by decide)).1

/-- Witness for C10: a loss streak from the fresh store leaves the
symbol's trust at the band floor, inside `[0.40, 0.95]`. -/
theorem xau_trust_band_witness :
    xauTrustMin ≤ (runXau [.upd "XAUUSD" false 0, .upd "XAUUSD" false 1]
      XauState.init).1.trust "XAUUSD" ∧
    (runXau [.upd "XAUUSD" false 0, .upd "XAUUSD" false 1]
      XauState.init).1.trust "XAUUSD" ≤ xauTrustMax :=
  (xau_trust_band [.upd "XAUUSD" false 0, .upd "XAUUSD" false 1]
    "XAUUSD").1

/-- Witness for C4 amended at the constant half-power. -/
theorem fx_trust_additive_trajectory_witness :
    (runFx constHalf [.upd "EURUSD" true 0] FxState.init).1.trust "EURUSD"
      = 11/20 :=
  (fx_trust_additive_trajectory constHalf).1

/-- Witness for C1 amended: the bound at the all-rejecting gateway. -/
theorem executor_send_bound_witness :
    (executeTrade constHalf permissiveEnv rejectAllGw "GBPUSD" "SHORT"
      40 90 (1/2) 1000 initExecState).sends ≤ 4 :=
  executor_send_bound constHalf permissiveEnv rejectAllGw "GBPUSD" "SHORT"
    40 90 (1/2) 1000 initExecState

end Trader
